import Mathlib

/-!
Verification development for the FacBal invoicing backend (src/main.py):
a shallow embedding of its atomic document-numbering subsystem and its
collaborative-editing coordination subsystem (presence, locks, drafts,
expiry sweep), with theorems checking the specification's claims.

Timestamps are modelled as integers; monetary amounts (Float in the
source) are modelled as integers because the embedded operations only
carry them through and never compute with them.
-/

set_option autoImplicit false

namespace FacBal

abbrev Timestamp := Int

/-! ## Table rows (src/main.py, SQLAlchemy models) -/

/-- users: {id (key), full_name, last_seen}. -/
structure UserRow where
  id : Nat
  full_name : String
  last_seen : Timestamp
deriving Repr, DecidableEq

/-- facturas: the fields create_invoice writes (id is autoincrement;
estado columns take their declared defaults on insert). -/
structure InvoiceRow where
  id : Nat
  numero_presupuesto : String
  numero_factura : String
  fecha : String
  cliente_id : Option Nat
  cliente_nombre : String
  cliente_domicilio : String
  cliente_telefono : String
  total : Int
  envio : Int
  tipo : String
  estado_orden_tela : String
  estado_moldura : String
  created_by : Nat
deriving Repr, DecidableEq

/-- items_factura. -/
structure ItemRow where
  factura_id : Nat
  cantidad : Int
  descripcion : String
  precio_unitario : Int
  total : Int
deriving Repr, DecidableEq

/-- invoice_locks: {invoice_id (key), user_id, acquired_at}. -/
structure LockRow where
  invoice_id : Nat
  user_id : Nat
  acquired_at : Timestamp
deriving Repr, DecidableEq

/-- drafts_in_progress: {user_id (key), client_name, started_at}. -/
structure DraftRow where
  user_id : Nat
  client_name : String
  started_at : Timestamp
deriving Repr, DecidableEq

/-- pagos. -/
structure PaymentRow where
  invoice_id : Nat
  amount : Int
  date : String
  method : String
deriving Repr, DecidableEq

/-- The persisted store: document_sequences is an association list from
a document series code (the source calls it the document prefix, e.g.
"F") to last_val; the other tables are row lists.  next_invoice_id
models the facturas autoincrement key. -/
structure DB where
  seqs : List (String × Nat)
  users : List UserRow
  invoices : List InvoiceRow
  items : List ItemRow
  locks : List LockRow
  drafts : List DraftRow
  payments : List PaymentRow
  next_invoice_id : Nat
deriving Repr, DecidableEq

def emptyDB : DB := ⟨[], [], [], [], [], [], [], 1⟩

/-- A SQLAlchemy session: `view` is what queries inside the transaction
see (committed state plus this session's pending changes); `commitS`
publishes it, `rollbackS` discards it. -/
structure Session where
  committed : DB
  view : DB
deriving Repr, DecidableEq

def commitS (s : Session) : Session := ⟨s.view, s.view⟩

def rollbackS (s : Session) : Session := ⟨s.committed, s.committed⟩

def freshSession (d : DB) : Session := ⟨d, d⟩

/-! ## document_sequences helpers (first-match semantics of .first()) -/

def lookupSeq : List (String × Nat) → String → Option Nat
  | [], _ => none
  | (q, v) :: rest, p => if q = p then some v else lookupSeq rest p

def setSeq : List (String × Nat) → String → Nat → List (String × Nat)
  | [], _, _ => []
  | (q, w) :: rest, p, v =>
      if q = p then (q, v) :: rest else (q, w) :: setSeq rest p v

/-! ## get_next_atomic_number (src/main.py lines 162-188) -/

def INITIAL_OFFSET : Nat := 9999

/-- Python str.zfill: left-pad with zeros up to width w. -/
def zfill (w : Nat) (s : String) : String :=
  if s.length < w then String.mk (List.replicate (w - s.length) '0') ++ s else s

/-- f"{pfx}-{str(v).zfill(5)}". -/
def formatNumber (pfx : String) (v : Nat) : String :=
  pfx ++ "-" ++ zfill 5 (Nat.repr v)

/-- The value update of get_next_atomic_number: raise to INITIAL_OFFSET
if below it, then increment by 1. -/
def bumpVal (v : Nat) : Nat :=
  (if v < INITIAL_OFFSET then INITIAL_OFFSET else v) + 1

/-- get_next_atomic_number on the success path (no IntegrityError):
query the row under lock; if absent, insert it seeded at INITIAL_OFFSET
and commit that creation, then re-query; raise the value to the offset
if below it, increment, and format.  The increment itself is left
uncommitted: the caller's commit publishes it. -/
def getNextAtomicNumber (s : Session) (pfx : String) : String × Session :=
  match lookupSeq s.view.seqs pfx with
  | some v =>
      let v2 := bumpVal v
      (formatNumber pfx v2,
       ⟨s.committed, { s.view with seqs := setSeq s.view.seqs pfx v2 }⟩)
  | none =>
      let s1 := commitS ⟨s.committed,
        { s.view with seqs := (pfx, INITIAL_OFFSET) :: s.view.seqs }⟩
      match lookupSeq s1.view.seqs pfx with
      | some v =>
          let v2 := bumpVal v
          (formatNumber pfx v2,
           ⟨s1.committed, { s1.view with seqs := setSeq s1.view.seqs pfx v2 }⟩)
      | none =>
          -- unreachable: the row for pfx was inserted at the head just above
          (formatNumber pfx 0, s1)

/-! ## First-match table helpers (.first() followed by mutation of that row) -/

def findUser : List UserRow → Nat → Option UserRow
  | [], _ => none
  | u :: rest, uid => if u.id = uid then some u else findUser rest uid

def touchUser : List UserRow → Nat → String → Timestamp → List UserRow
  | [], _, _, _ => []
  | u :: rest, uid, uname, now =>
      if u.id = uid then { u with full_name := uname, last_seen := now } :: rest
      else u :: touchUser rest uid uname now

def findLock : List LockRow → Nat → Option LockRow
  | [], _ => none
  | l :: rest, fid => if l.invoice_id = fid then some l else findLock rest fid

def refreshLock : List LockRow → Nat → Timestamp → List LockRow
  | [], _, _ => []
  | l :: rest, fid, now =>
      if l.invoice_id = fid then { l with acquired_at := now } :: rest
      else l :: refreshLock rest fid now

def findDraft : List DraftRow → Nat → Option DraftRow
  | [], _ => none
  | r :: rest, uid => if r.user_id = uid then some r else findDraft rest uid

def updateDraft : List DraftRow → Nat → String → Timestamp → List DraftRow
  | [], _, _, _ => []
  | r :: rest, uid, cname, now =>
      if r.user_id = uid then { r with client_name := cname, started_at := now } :: rest
      else r :: updateDraft rest uid cname now

def findInvoice : List InvoiceRow → Nat → Option InvoiceRow
  | [], _ => none
  | r :: rest, fid => if r.id = fid then some r else findInvoice rest fid

/-- The number of lock rows for an invoice (observer for the
one-lock-per-invoice key invariant). -/
def countLocksFor : List LockRow → Nat → Nat
  | [], _ => 0
  | l :: rest, fid => (if l.invoice_id = fid then 1 else 0) + countLocksFor rest fid

/-- The number of draft rows for a user (observer for the
one-draft-per-user key invariant). -/
def countDraftsFor : List DraftRow → Nat → Nat
  | [], _ => 0
  | r :: rest, uid => (if r.user_id = uid then 1 else 0) + countDraftsFor rest uid

def updateFirstInvoice : List InvoiceRow → Nat → (InvoiceRow → InvoiceRow) → List InvoiceRow
  | [], _, _ => []
  | r :: rest, fid, f =>
      if r.id = fid then f r :: rest else r :: updateFirstInvoice rest fid f

/-! ## Presence (src/main.py: heartbeat lines 228-239, get_active_users 245-249) -/

/-- heartbeat: upsert the user row.  If absent, a new row is added whose
last_seen takes the column default utcnow (the add is committed by the
piggybacked cleanup task's commit on the same session); if present,
full_name and last_seen are overwritten and committed. -/
def heartbeat (uid : Nat) (uname : String) (now : Timestamp) (d : DB) : DB :=
  match findUser d.users uid with
  | none => { d with users := d.users ++ [⟨uid, uname, now⟩] }
  | some _ => { d with users := touchUser d.users uid uname now }

/-- The source's hardcoded active window: 20 seconds. -/
def ACTIVE_WINDOW : Int := 20

/-- get_active_users: users with last_seen > utcnow - 20 seconds. -/
def get_active_users (now : Timestamp) (d : DB) : List (Nat × String) :=
  (d.users.filter (fun u => decide (now - ACTIVE_WINDOW < u.last_seen))).map
    (fun u => (u.id, u.full_name))

/-! ## Expiry sweep (src/main.py: cleanup_inactive_users_logic lines 209-213) -/

/-- The source's hardcoded staleness TTL: 30 seconds. -/
def SWEEP_TTL : Int := 30

/-- cleanup_inactive_users_logic: delete locks with acquired_at < now - 30
and drafts with started_at < now - 30, then commit. -/
def cleanup_inactive_users_logic (now : Timestamp) (d : DB) : DB :=
  let limit := now - SWEEP_TTL
  { d with
    locks := d.locks.filter (fun l => !decide (l.acquired_at < limit))
    drafts := d.drafts.filter (fun r => !decide (r.started_at < limit)) }

/-! ## Edit locks (src/main.py: acquire_lock lines 366-376) -/

/-- The outcome of the lock endpoint: HTTP 200 {"status": "locked"} or a
raised HTTPException with a status code and a detail string. -/
inductive AcquireResult where
  | locked
  | conflict (code : Nat) (detail : String)
deriving Repr, DecidableEq

/-- acquire_lock: if a lock row for the invoice exists and is held by a
different user, raise 409 with a fixed detail string and leave the store
untouched; if held by the requester, refresh acquired_at; otherwise
insert a new lock row. -/
def acquire_lock (fid : Nat) (uid : Nat) (now : Timestamp) (d : DB) :
    AcquireResult × DB :=
  match findLock d.locks fid with
  | some l =>
      if l.user_id ≠ uid then
        (.conflict 409 "Factura bloqueada por otro usuario", d)
      else
        (.locked, { d with locks := refreshLock d.locks fid now })
  | none => (.locked, { d with locks := d.locks ++ [⟨fid, uid, now⟩] })

/-- Modelled from the spec: src/main.py exposes no release/unlock endpoint
(lock rows are deleted only by cleanup_inactive_users_logic), so release
follows the spec's LockManager contract: delete the lock only if it is
currently held by user_id; a request from a non-holder, or when no lock
exists, is a no-op. -/
def release (fid : Nat) (uid : Nat) (d : DB) : DB :=
  match findLock d.locks fid with
  | some l =>
      if l.user_id = uid then
        { d with locks := d.locks.filter (fun r => !decide (r.invoice_id = fid)) }
      else d
  | none => d

/-! ## Drafts (src/main.py: register_draft lines 354-363) -/

/-- register_draft: upsert keyed by user_id, overwriting client_name and
started_at. -/
def register_draft (uid : Nat) (cname : String) (now : Timestamp) (d : DB) : DB :=
  match findDraft d.drafts uid with
  | none => { d with drafts := d.drafts ++ [⟨uid, cname, now⟩] }
  | some _ => { d with drafts := updateDraft d.drafts uid cname now }

/-! ## Invoice creation (src/main.py: create_invoice lines 384-423) -/

structure ItemCreate where
  cantidad : Int
  descripcion : String
  precio_unitario : Int
  total : Int
deriving Repr, DecidableEq

/-- The InvoiceCreate request schema (numero_factura is client-supplied
but unused by create_invoice). -/
structure InvoiceCreate where
  numero_factura : String
  numero_presupuesto : String
  fecha : String
  cliente_id : Option Nat
  cliente_nombre : String
  cliente_domicilio : String
  cliente_telefono : String
  items : List ItemCreate
  total : Int
  envio : Int
  tipo : String
  user_id : Nat
deriving Repr, DecidableEq

/-- create_invoice: allocate the number, insert the invoice with the
server-generated number (flush assigns the autoincrement id), insert the
items, delete the requester's draft, then commit everything together
with the counter increment. -/
def create_invoice (s : Session) (inv : InvoiceCreate) : InvoiceRow × Session :=
  let r := getNextAtomicNumber s "F"
  let final_number := r.1
  let s1 := r.2
  let fid := s1.view.next_invoice_id
  let row : InvoiceRow :=
    { id := fid
      numero_factura := final_number
      numero_presupuesto := inv.numero_presupuesto
      fecha := inv.fecha
      cliente_id := inv.cliente_id
      cliente_nombre := inv.cliente_nombre
      cliente_domicilio := inv.cliente_domicilio
      cliente_telefono := inv.cliente_telefono
      total := inv.total
      envio := inv.envio
      tipo := inv.tipo
      estado_orden_tela := "PENDING"
      estado_moldura := "PENDING"
      created_by := inv.user_id }
  let newItems := inv.items.map (fun it =>
    ItemRow.mk fid it.cantidad it.descripcion it.precio_unitario it.total)
  let view2 := { s1.view with
    invoices := s1.view.invoices ++ [row]
    next_invoice_id := fid + 1
    items := s1.view.items ++ newItems
    drafts := s1.view.drafts.filter (fun r => !decide (r.user_id = inv.user_id)) }
  (row, commitS ⟨s1.committed, view2⟩)

/-- The run of create_invoice in which the invoice insert raises after
get_next_atomic_number returned: the session rolls back, so the
uncommitted counter increment is discarded with the invoice. -/
def create_invoice_fail (s : Session) : Session :=
  rollbackS (getNextAtomicNumber s "F").2

/-! ## Remaining mutating endpoints (for the whole-system invariants) -/

/-- update_invoice: overwrite the found invoice's fields from the request
and replace its items; 404 (no change) when the invoice is absent. -/
def update_invoice (fid : Nat) (inv : InvoiceCreate) (d : DB) : DB :=
  match findInvoice d.invoices fid with
  | none => d
  | some _ =>
      let upd : InvoiceRow → InvoiceRow := fun r =>
        { r with
          numero_factura := inv.numero_factura
          fecha := inv.fecha
          cliente_id := inv.cliente_id
          cliente_nombre := inv.cliente_nombre
          cliente_domicilio := inv.cliente_domicilio
          cliente_telefono := inv.cliente_telefono
          total := inv.total
          envio := inv.envio }
      let newItems := inv.items.map (fun it =>
        ItemRow.mk fid it.cantidad it.descripcion it.precio_unitario it.total)
      { d with
        invoices := updateFirstInvoice d.invoices fid upd
        items := d.items.filter (fun it => !decide (it.factura_id = fid)) ++ newItems }

/-- delete_invoice: when the invoice exists, delete its payments, the
invoice row and (cascade) its items, and commit; when it is absent the
pending payment deletion is never committed (the session closes without
commit), so nothing changes. -/
def delete_invoice (fid : Nat) (d : DB) : DB :=
  match findInvoice d.invoices fid with
  | some _ =>
      { d with
        payments := d.payments.filter (fun p => !decide (p.invoice_id = fid))
        invoices := d.invoices.filter (fun r => !decide (r.id = fid))
        items := d.items.filter (fun it => !decide (it.factura_id = fid)) }
  | none => d

/-- create_payment: append the payment row and commit. -/
def create_payment (p : PaymentRow) (d : DB) : DB :=
  { d with payments := d.payments ++ [p] }

/-! ## get_next_atomic_number with the IntegrityError retry (lines 169-178) -/

/-- What the environment does to a counter-row creation attempt: the
commit succeeds, or it raises IntegrityError because a concurrent winner
created the row first; winner is the last_val the winner committed
(none models the pathological case where the violation recurs while no
row becomes visible). -/
inductive CreateOutcome where
  | ok
  | integrityError (winner : Option Nat)
deriving Repr, DecidableEq

/-- get_next_atomic_number with its IntegrityError handler: on
IntegrityError the session rolls back (the winner's committed row, if
any, is then visible) and the whole allocation re-runs from the top by
recursion.  The recursion in the source has no bound of its own; fuel
counts the recursive calls we are willing to unfold, and none means the
recursion exceeded that many calls. -/
def getNextAtomicNumberR (env : Nat → CreateOutcome) (pfx : String) :
    Nat → Nat → Session → Option (String × Session)
  | _, 0, _ => none
  | attempt, fuel + 1, s =>
    match lookupSeq s.view.seqs pfx with
    | some v =>
        let v2 := bumpVal v
        some (formatNumber pfx v2,
          ⟨s.committed, { s.view with seqs := setSeq s.view.seqs pfx v2 }⟩)
    | none =>
        match env attempt with
        | .ok =>
            let s1 := commitS ⟨s.committed,
              { s.view with seqs := (pfx, INITIAL_OFFSET) :: s.view.seqs }⟩
            match lookupSeq s1.view.seqs pfx with
            | some v =>
                let v2 := bumpVal v
                some (formatNumber pfx v2,
                  ⟨s1.committed, { s1.view with seqs := setSeq s1.view.seqs pfx v2 }⟩)
            | none => some (formatNumber pfx 0, s1)
        | .integrityError w =>
            let dC := match w with
              | some v => { s.committed with seqs := (pfx, v) :: s.committed.seqs }
              | none => s.committed
            getNextAtomicNumberR env pfx (attempt + 1) fuel (rollbackS ⟨dC, s.view⟩)

/-! ## The system as a step function over committed states -/

/-- The numeric value get_next_atomic_number allocates when run against
committed state d: the stored value (INITIAL_OFFSET for a freshly
created row), raised to the offset if below it, plus one. -/
def allocValF (d : DB) : Nat :=
  bumpVal ((lookupSeq d.seqs "F").getD INITIAL_OFFSET)

/-- The committed value of the counter for series p (0 when the row does
not exist). -/
def seqValD (d : DB) (p : String) : Nat :=
  (lookupSeq d.seqs p).getD 0

/-- The mutating endpoints of the service. -/
inductive Op where
  | createInvoice (inv : InvoiceCreate)
  | updateInvoice (fid : Nat) (inv : InvoiceCreate)
  | deleteInvoice (fid : Nat)
  | createPayment (p : PaymentRow)
  | heartbeatOp (uid : Nat) (uname : String) (now : Timestamp)
  | cleanupOp (now : Timestamp)
  | acquireOp (fid : Nat) (uid : Nat) (now : Timestamp)
  | releaseOp (fid : Nat) (uid : Nat)
  | registerDraftOp (uid : Nat) (cname : String) (now : Timestamp)
deriving Repr, DecidableEq

/-- The committed state each endpoint leaves behind (each request runs
on a fresh session over the committed store and commits). -/
def applyOp : Op → DB → DB
  | .createInvoice inv, d => (create_invoice (freshSession d) inv).2.committed
  | .updateInvoice fid inv, d => update_invoice fid inv d
  | .deleteInvoice fid, d => delete_invoice fid d
  | .createPayment p, d => create_payment p d
  | .heartbeatOp uid uname now, d => heartbeat uid uname now d
  | .cleanupOp now, d => cleanup_inactive_users_logic now d
  | .acquireOp fid uid now, d => (acquire_lock fid uid now d).2
  | .releaseOp fid uid, d => release fid uid d
  | .registerDraftOp uid cname now, d => register_draft uid cname now d

def runOps : List Op → DB → DB
  | [], d => d
  | op :: rest, d => runOps rest (applyOp op d)

/-- The numeric values the createInvoice steps of an op allocate. -/
def opAllocs : Op → DB → List Nat
  | .createInvoice _, d => [allocValF d]
  | _, _ => []

/-- The numeric document-number values allocated along a run, in order. -/
def allocLog : List Op → DB → List Nat
  | [], _ => []
  | op :: rest, d => opAllocs op d ++ allocLog rest (applyOp op d)

/-! ## Lemmas: the document_sequences association list -/

theorem lookupSeq_set_self (l : List (String × Nat)) (p : String) (v w : Nat)
    (h : lookupSeq l p = some w) : lookupSeq (setSeq l p v) p = some v := by
  induction l with
  | nil => simp [lookupSeq] at h
  | cons hd tl ih =>
      obtain ⟨q, u⟩ := hd
      by_cases hq : q = p
      · simp [setSeq, lookupSeq, hq]
      · simp only [lookupSeq, setSeq, if_neg hq] at h ⊢
        exact ih h

theorem setSeq_of_lookup_none (l : List (String × Nat)) (p : String) (v : Nat)
    (h : lookupSeq l p = none) : setSeq l p v = l := by
  induction l with
  | nil => rfl
  | cons hd tl ih =>
      obtain ⟨q, u⟩ := hd
      by_cases hq : q = p
      · simp [lookupSeq, hq] at h
      · simp only [lookupSeq, if_neg hq] at h
        simp [setSeq, if_neg hq, ih h]

theorem lookupSeq_set_ne (l : List (String × Nat)) (p q : String) (v : Nat)
    (h : q ≠ p) : lookupSeq (setSeq l p v) q = lookupSeq l q := by
  induction l with
  | nil => rfl
  | cons hd tl ih =>
      obtain ⟨r, u⟩ := hd
      by_cases hr : r = p
      · subst hr
        simp [setSeq, lookupSeq, Ne.symm h]
      · simp only [setSeq, if_neg hr, lookupSeq]
        by_cases hq : r = q <;> simp [hq, ih]

/-! ## Lemmas: get_next_atomic_number unfolded by cases -/

theorem getNextAtomicNumber_eq_some {s : Session} {p : String} {v : Nat}
    (h : lookupSeq s.view.seqs p = some v) :
    getNextAtomicNumber s p
      = (formatNumber p (bumpVal v),
         ⟨s.committed, { s.view with seqs := setSeq s.view.seqs p (bumpVal v) }⟩) := by
  simp [getNextAtomicNumber, h]

theorem getNextAtomicNumber_eq_none {s : Session} {p : String}
    (h : lookupSeq s.view.seqs p = none) :
    getNextAtomicNumber s p
      = (formatNumber p (bumpVal INITIAL_OFFSET),
         ⟨{ s.view with seqs := (p, INITIAL_OFFSET) :: s.view.seqs },
          { s.view with seqs := (p, bumpVal INITIAL_OFFSET) :: s.view.seqs }⟩) := by
  simp [getNextAtomicNumber, h, commitS, lookupSeq, setSeq]

/-- The number returned by get_next_atomic_number, as a function of the
session's view: the stored value (INITIAL_OFFSET when the row is
missing), raised to the offset if below and incremented. -/
theorem getNextAtomicNumber_fst (s : Session) (p : String) :
    (getNextAtomicNumber s p).1
      = formatNumber p (bumpVal ((lookupSeq s.view.seqs p).getD INITIAL_OFFSET)) := by
  rcases h : lookupSeq s.view.seqs p with _ | v
  · rw [getNextAtomicNumber_eq_none h]
    rfl
  · rw [getNextAtomicNumber_eq_some h]
    rfl

/-- After get_next_atomic_number, the session's view holds exactly the
allocated value for the series. -/
theorem getNextAtomicNumber_view_lookup (s : Session) (p : String) :
    lookupSeq (getNextAtomicNumber s p).2.view.seqs p
      = some (bumpVal ((lookupSeq s.view.seqs p).getD INITIAL_OFFSET)) := by
  rcases h : lookupSeq s.view.seqs p with _ | v
  · rw [getNextAtomicNumber_eq_none h]
    simp [lookupSeq]
  · rw [getNextAtomicNumber_eq_some h]
    exact lookupSeq_set_self s.view.seqs p (bumpVal v) v h

/-- Looking up a series other than the allocated one is unaffected by
get_next_atomic_number. -/
theorem getNextAtomicNumber_view_lookup_ne (s : Session) (p q : String)
    (h : q ≠ p) :
    lookupSeq (getNextAtomicNumber s p).2.view.seqs q = lookupSeq s.view.seqs q := by
  rcases hl : lookupSeq s.view.seqs p with _ | v
  · rw [getNextAtomicNumber_eq_none hl]
    show lookupSeq ((p, bumpVal INITIAL_OFFSET) :: s.view.seqs) q = _
    simp [lookupSeq, Ne.symm h]
  · rw [getNextAtomicNumber_eq_some hl]
    exact lookupSeq_set_ne s.view.seqs p q (bumpVal v) h

/-- getNextAtomicNumber_view_lookup specialized to a request-fresh
session over committed state d. -/
theorem getNextAtomicNumber_fresh_view_lookup (d : DB) (p : String) :
    lookupSeq (getNextAtomicNumber (freshSession d) p).2.view.seqs p
      = some (bumpVal ((lookupSeq d.seqs p).getD INITIAL_OFFSET)) :=
  getNextAtomicNumber_view_lookup (freshSession d) p

/-! ## Lemmas: non-allocating endpoints leave document_sequences alone -/

theorem applyOp_seqs_eq_of_not_create (op : Op) (d : DB)
    (hop : ∀ inv, op ≠ Op.createInvoice inv) :
    (applyOp op d).seqs = d.seqs := by
  cases op with
  | createInvoice inv => exact absurd rfl (hop inv)
  | updateInvoice fid inv =>
      show (update_invoice fid inv d).seqs = d.seqs
      rcases h : findInvoice d.invoices fid with _ | r <;> simp [update_invoice, h]
  | deleteInvoice fid =>
      show (delete_invoice fid d).seqs = d.seqs
      rcases h : findInvoice d.invoices fid with _ | r <;> simp [delete_invoice, h]
  | createPayment p => rfl
  | heartbeatOp uid un now =>
      show (heartbeat uid un now d).seqs = d.seqs
      rcases h : findUser d.users uid with _ | r <;> simp [heartbeat, h]
  | cleanupOp now => rfl
  | acquireOp fid uid now =>
      show (acquire_lock fid uid now d).2.seqs = d.seqs
      rcases h : findLock d.locks fid with _ | l
      · simp [acquire_lock, h]
      · by_cases hu : l.user_id ≠ uid <;> simp [acquire_lock, h, hu]
  | releaseOp fid uid =>
      show (release fid uid d).seqs = d.seqs
      rcases h : findLock d.locks fid with _ | l
      · simp [release, h]
      · by_cases hu : l.user_id = uid <;> simp [release, h, hu]
  | registerDraftOp uid c now =>
      show (register_draft uid c now d).seqs = d.seqs
      rcases h : findDraft d.drafts uid with _ | r <;> simp [register_draft, h]

/-- The counter value for every series never decreases under any
operation. -/
theorem seqValD_mono (op : Op) (d : DB) (p : String) :
    seqValD d p ≤ seqValD (applyOp op d) p := by
  by_cases hc : ∃ inv, op = Op.createInvoice inv
  · rcases hc with ⟨inv, rfl⟩
    have hs : (applyOp (Op.createInvoice inv) d).seqs
        = (getNextAtomicNumber (freshSession d) "F").2.view.seqs := rfl
    unfold seqValD
    rw [hs]
    by_cases hp : p = "F"
    · subst hp
      rw [getNextAtomicNumber_fresh_view_lookup d "F"]
      rcases lookupSeq d.seqs "F" with _ | v
      · simp
      · simp only [Option.getD_some]
        unfold bumpVal
        split_ifs <;> omega
    · rw [getNextAtomicNumber_view_lookup_ne (freshSession d) "F" p hp]
      exact Nat.le_refl _
  · rw [seqValD, seqValD, applyOp_seqs_eq_of_not_create op d fun inv hh => hc ⟨inv, hh⟩]

/-- A counter row, once present, survives every operation: nothing ever
deletes a document_sequences row. -/
theorem seqs_key_preserved (op : Op) (d : DB) (p : String)
    (h : (lookupSeq d.seqs p).isSome = true) :
    (lookupSeq (applyOp op d).seqs p).isSome = true := by
  by_cases hc : ∃ inv, op = Op.createInvoice inv
  · rcases hc with ⟨inv, rfl⟩
    have hs : (applyOp (Op.createInvoice inv) d).seqs
        = (getNextAtomicNumber (freshSession d) "F").2.view.seqs := rfl
    rw [hs]
    by_cases hp : p = "F"
    · subst hp
      rw [getNextAtomicNumber_fresh_view_lookup d "F"]
      rfl
    · rw [getNextAtomicNumber_view_lookup_ne (freshSession d) "F" p hp]
      exact h
  · rw [applyOp_seqs_eq_of_not_create op d fun inv hh => hc ⟨inv, hh⟩]
    exact h

/-- Each allocation strictly exceeds the committed counter value it
started from. -/
theorem allocValF_gt (d : DB) : seqValD d "F" < allocValF d := by
  unfold seqValD allocValF bumpVal
  rcases lookupSeq d.seqs "F" with _ | v
  · simp [INITIAL_OFFSET]
  · simp only [Option.getD_some]
    split_ifs <;> omega

/-- A committed create_invoice leaves the counter at exactly the value
it allocated. -/
theorem applyOp_create_seqVal (inv : InvoiceCreate) (d : DB) :
    seqValD (applyOp (Op.createInvoice inv) d) "F" = allocValF d := by
  have hs : (applyOp (Op.createInvoice inv) d).seqs
      = (getNextAtomicNumber (freshSession d) "F").2.view.seqs := rfl
  unfold seqValD
  rw [hs, getNextAtomicNumber_fresh_view_lookup d "F"]
  rfl

/-- Along any run, the allocated numeric values are strictly increasing
and strictly above the starting counter value. -/
theorem allocLog_strict (ops : List Op) (d : DB) :
    List.Pairwise (· < ·) (allocLog ops d)
    ∧ ∀ x ∈ allocLog ops d, seqValD d "F" < x := by
  induction ops generalizing d with
  | nil => exact ⟨List.Pairwise.nil, fun x hx => absurd hx (List.not_mem_nil x)⟩
  | cons op rest ih =>
      rcases ih (applyOp op d) with ⟨ihp, ihgt⟩
      by_cases hc : ∃ inv, op = Op.createInvoice inv
      · rcases hc with ⟨inv, rfl⟩
        have hval := applyOp_create_seqVal inv d
        have hgt := allocValF_gt d
        constructor
        · show List.Pairwise (· < ·)
            (allocValF d :: allocLog rest (applyOp (Op.createInvoice inv) d))
          refine List.pairwise_cons.mpr ⟨fun b hb => ?_, ihp⟩
          have hb2 := ihgt b hb
          rw [hval] at hb2
          exact hb2
        · intro x hx
          rcases List.mem_cons.mp hx with rfl | hx2
          · exact hgt
          · have hx3 := ihgt x hx2
            rw [hval] at hx3
            exact lt_trans hgt hx3
      · have hseqs := applyOp_seqs_eq_of_not_create op d fun inv hh => hc ⟨inv, hh⟩
        have hlog : allocLog (op :: rest) d = allocLog rest (applyOp op d) := by
          cases op with
          | createInvoice inv => exact absurd ⟨inv, rfl⟩ hc
          | updateInvoice fid inv => rfl
          | deleteInvoice fid => rfl
          | createPayment p => rfl
          | heartbeatOp uid un now => rfl
          | cleanupOp now => rfl
          | acquireOp fid uid now => rfl
          | releaseOp fid uid => rfl
          | registerDraftOp uid c now => rfl
        rw [hlog]
        refine ⟨ihp, fun x hx => ?_⟩
        have hv : seqValD d "F" = seqValD (applyOp op d) "F" := by
          rw [seqValD, seqValD, hseqs]
        rw [hv]
        exact ihgt x hx

/-! ## Lemmas: lock rows -/

theorem findLock_none_iff (l : List LockRow) (fid : Nat) :
    findLock l fid = none ↔ ∀ r ∈ l, r.invoice_id ≠ fid := by
  induction l with
  | nil => simp [findLock]
  | cons hd tl ih =>
      by_cases h : hd.invoice_id = fid
      · simp [findLock, h]
      · simp [findLock, h, ih]

theorem findLock_some_fid (l : List LockRow) (fid : Nat) (l0 : LockRow)
    (h : findLock l fid = some l0) : l0.invoice_id = fid := by
  induction l with
  | nil => simp [findLock] at h
  | cons hd tl ih =>
      by_cases hh : hd.invoice_id = fid
      · simp only [findLock, if_pos hh] at h
        exact (Option.some.inj h) ▸ hh
      · simp only [findLock, if_neg hh] at h
        exact ih h

theorem findLock_append_single (l : List LockRow) (r : LockRow) (fid : Nat)
    (hnone : findLock l fid = none) (hr : r.invoice_id = fid) :
    findLock (l ++ [r]) fid = some r := by
  induction l with
  | nil => simp [findLock, hr]
  | cons hd tl ih =>
      by_cases h : hd.invoice_id = fid
      · simp [findLock, h] at hnone
      · simp only [findLock, if_neg h] at hnone
        simpa [findLock, h] using ih hnone

theorem findLock_refreshLock (l : List LockRow) (fid : Nat) (now : Timestamp)
    (l0 : LockRow) (h : findLock l fid = some l0) :
    findLock (refreshLock l fid now) fid = some { l0 with acquired_at := now } := by
  induction l with
  | nil => simp [findLock] at h
  | cons hd tl ih =>
      by_cases hh : hd.invoice_id = fid
      · simp only [findLock, if_pos hh] at h
        obtain rfl : hd = l0 := Option.some.inj h
        simp [refreshLock, findLock, hh]
      · simp only [findLock, if_neg hh] at h
        simpa [refreshLock, findLock, hh] using ih h

theorem countLocksFor_refreshLock (l : List LockRow) (fid fid2 : Nat)
    (now : Timestamp) :
    countLocksFor (refreshLock l fid now) fid2 = countLocksFor l fid2 := by
  induction l with
  | nil => rfl
  | cons hd tl ih =>
      by_cases hh : hd.invoice_id = fid
      · simp [refreshLock, hh, countLocksFor]
      · simp [refreshLock, hh, countLocksFor, ih]

theorem countLocksFor_eq_zero (l : List LockRow) (fid : Nat)
    (h : ∀ r ∈ l, r.invoice_id ≠ fid) : countLocksFor l fid = 0 := by
  induction l with
  | nil => rfl
  | cons hd tl ih =>
      simp [countLocksFor, h hd (List.mem_cons_self hd tl),
        ih fun r hr => h r (List.mem_cons_of_mem hd hr)]

theorem countLocksFor_eq_one (l : List LockRow) (fid : Nat) (l0 : LockRow)
    (huniq : List.Pairwise (fun a b => a.invoice_id ≠ b.invoice_id) l)
    (h : findLock l fid = some l0) :
    countLocksFor l fid = 1 := by
  induction l with
  | nil => simp [findLock] at h
  | cons hd tl ih =>
      rcases List.pairwise_cons.mp huniq with ⟨hhd, htl⟩
      by_cases hh : hd.invoice_id = fid
      · have hz := countLocksFor_eq_zero tl fid
          fun r hr he => (hhd r hr) (hh.trans he.symm)
        simp [countLocksFor, hh, hz]
      · simp only [findLock, if_neg hh] at h
        simp [countLocksFor, hh, ih htl h]

theorem mem_lock_unique (l : List LockRow) (a b : LockRow)
    (huniq : List.Pairwise (fun x y => x.invoice_id ≠ y.invoice_id) l)
    (ha : a ∈ l) (hb : b ∈ l) (hab : a.invoice_id = b.invoice_id) : a = b := by
  induction l with
  | nil => cases ha
  | cons hd tl ih =>
      rcases List.pairwise_cons.mp huniq with ⟨hhd, htl⟩
      rcases List.mem_cons.mp ha with ha1 | ha2 <;>
        rcases List.mem_cons.mp hb with hb1 | hb2
      · rw [ha1, hb1]
      · exact absurd hab (ha1 ▸ hhd b hb2)
      · exact absurd hab.symm (hb1 ▸ hhd a ha2)
      · exact ih htl ha2 hb2

theorem findLock_filter_none (l : List LockRow) (fid : Nat) (p : LockRow → Bool)
    (h : ∀ r ∈ l, r.invoice_id = fid → p r = false) :
    findLock (l.filter p) fid = none := by
  induction l with
  | nil => rfl
  | cons hd tl ih =>
      have htl := ih fun r hr => h r (List.mem_cons_of_mem hd hr)
      cases hp : p hd
      · simpa [List.filter_cons, hp] using htl
      · have hne : hd.invoice_id ≠ fid := by
          intro he
          have hf := h hd (List.mem_cons_self hd tl) he
          rw [hp] at hf
          cases hf
        simpa [List.filter_cons, hp, findLock, hne] using htl

/-! ## Lemmas: draft rows -/

theorem findDraft_none_iff (l : List DraftRow) (uid : Nat) :
    findDraft l uid = none ↔ ∀ r ∈ l, r.user_id ≠ uid := by
  induction l with
  | nil => simp [findDraft]
  | cons hd tl ih =>
      by_cases h : hd.user_id = uid
      · simp [findDraft, h]
      · simp [findDraft, h, ih]

theorem findDraft_some_uid (l : List DraftRow) (uid : Nat) (r0 : DraftRow)
    (h : findDraft l uid = some r0) : r0.user_id = uid := by
  induction l with
  | nil => simp [findDraft] at h
  | cons hd tl ih =>
      by_cases hh : hd.user_id = uid
      · simp only [findDraft, if_pos hh] at h
        exact (Option.some.inj h) ▸ hh
      · simp only [findDraft, if_neg hh] at h
        exact ih h

theorem findDraft_append_single (l : List DraftRow) (r : DraftRow) (uid : Nat)
    (hnone : findDraft l uid = none) (hr : r.user_id = uid) :
    findDraft (l ++ [r]) uid = some r := by
  induction l with
  | nil => simp [findDraft, hr]
  | cons hd tl ih =>
      by_cases h : hd.user_id = uid
      · simp [findDraft, h] at hnone
      · simp only [findDraft, if_neg h] at hnone
        simpa [findDraft, h] using ih hnone

theorem findDraft_updateDraft (l : List DraftRow) (uid : Nat) (cname : String)
    (now : Timestamp) (r0 : DraftRow) (h : findDraft l uid = some r0) :
    findDraft (updateDraft l uid cname now) uid
      = some { r0 with client_name := cname, started_at := now } := by
  induction l with
  | nil => simp [findDraft] at h
  | cons hd tl ih =>
      by_cases hh : hd.user_id = uid
      · simp only [findDraft, if_pos hh] at h
        obtain rfl : hd = r0 := Option.some.inj h
        simp [updateDraft, findDraft, hh]
      · simp only [findDraft, if_neg hh] at h
        simpa [updateDraft, findDraft, hh] using ih h

theorem updateDraft_userIds (l : List DraftRow) (uid : Nat) (cname : String)
    (now : Timestamp) :
    (updateDraft l uid cname now).map (fun r => r.user_id)
      = l.map (fun r => r.user_id) := by
  induction l with
  | nil => rfl
  | cons hd tl ih =>
      by_cases hh : hd.user_id = uid
      · simp [updateDraft, hh]
      · simp [updateDraft, hh, ih]

theorem countDraftsFor_eq_zero (l : List DraftRow) (uid : Nat)
    (h : ∀ r ∈ l, r.user_id ≠ uid) : countDraftsFor l uid = 0 := by
  induction l with
  | nil => rfl
  | cons hd tl ih =>
      simp [countDraftsFor, h hd (List.mem_cons_self hd tl),
        ih fun r hr => h r (List.mem_cons_of_mem hd hr)]

theorem countDraftsFor_le_one (l : List DraftRow) (uid : Nat)
    (h : List.Pairwise (fun a b : DraftRow => a.user_id ≠ b.user_id) l) :
    countDraftsFor l uid ≤ 1 := by
  induction l with
  | nil => simp [countDraftsFor]
  | cons hd tl ih =>
      rcases List.pairwise_cons.mp h with ⟨hhd, htl⟩
      by_cases hh : hd.user_id = uid
      · have hz := countDraftsFor_eq_zero tl uid
          fun r hr he => (hhd r hr) (hh.trans he.symm)
        simp [countDraftsFor, hh, hz]
      · simpa [countDraftsFor, hh] using ih htl

/-- register_draft leaves the draft for uid holding exactly the last
registered client_name and timestamp. -/
theorem register_draft_findDraft (d : DB) (uid : Nat) (cname : String)
    (now : Timestamp) :
    findDraft (register_draft uid cname now d).drafts uid
      = some (DraftRow.mk uid cname now) := by
  rcases h : findDraft d.drafts uid with _ | r0
  · simp only [register_draft, h]
    exact findDraft_append_single d.drafts _ uid h rfl
  · simp only [register_draft, h]
    have h1 := findDraft_updateDraft d.drafts uid cname now r0 h
    have h2 := findDraft_some_uid d.drafts uid r0 h
    cases r0
    simp only at h2
    subst h2
    exact h1

/-- register_draft preserves the one-draft-per-user key invariant. -/
theorem register_draft_pairwise (d : DB) (uid : Nat) (cname : String)
    (now : Timestamp)
    (h : List.Pairwise (fun a b : DraftRow => a.user_id ≠ b.user_id) d.drafts) :
    List.Pairwise (fun a b : DraftRow => a.user_id ≠ b.user_id)
      (register_draft uid cname now d).drafts := by
  rcases hf : findDraft d.drafts uid with _ | r0
  · simp only [register_draft, hf]
    refine List.pairwise_append.mpr ⟨h, List.pairwise_singleton _ _, ?_⟩
    intro a ha b hb
    rcases List.mem_singleton.mp hb with rfl
    exact ((findDraft_none_iff d.drafts uid).mp hf) a ha
  · simp only [register_draft, hf]
    have hm : ((updateDraft d.drafts uid cname now).map
        (fun r => r.user_id)).Pairwise (· ≠ ·) := by
      rw [updateDraft_userIds]
      exact List.pairwise_map.mpr h
    exact List.pairwise_map.mp hm

/-! ## Lemmas: user rows -/

theorem findUser_none_iff (l : List UserRow) (uid : Nat) :
    findUser l uid = none ↔ ∀ r ∈ l, r.id ≠ uid := by
  induction l with
  | nil => simp [findUser]
  | cons hd tl ih =>
      by_cases h : hd.id = uid
      · simp [findUser, h]
      · simp [findUser, h, ih]

theorem touchUser_last_seen (l : List UserRow) (uid : Nat) (un : String)
    (t : Timestamp)
    (huniq : List.Pairwise (fun a b : UserRow => a.id ≠ b.id) l) :
    ∀ r ∈ touchUser l uid un t, r.id = uid → r.last_seen = t := by
  induction l with
  | nil =>
      intro r hr
      cases hr
  | cons hd tl ih =>
      rcases List.pairwise_cons.mp huniq with ⟨hhd, htl⟩
      intro r hr hrid
      by_cases hh : hd.id = uid
      · simp only [touchUser, if_pos hh] at hr
        rcases List.mem_cons.mp hr with rfl | hr2
        · rfl
        · exact absurd (hh.trans hrid.symm) (hhd r hr2)
      · simp only [touchUser, if_neg hh] at hr
        rcases List.mem_cons.mp hr with rfl | hr2
        · exact absurd hrid hh
        · exact ih htl r hr2 hrid

/-- After a heartbeat for uid at time t, every user row bearing id uid
has last_seen = t. -/
theorem heartbeat_last_seen (d : DB) (uid : Nat) (un : String) (t : Timestamp)
    (huniq : List.Pairwise (fun a b : UserRow => a.id ≠ b.id) d.users) :
    ∀ r ∈ (heartbeat uid un t d).users, r.id = uid → r.last_seen = t := by
  rcases h : findUser d.users uid with _ | u0
  · simp only [heartbeat, h]
    intro r hr hrid
    rcases List.mem_append.mp hr with hr1 | hr2
    · exact absurd hrid (((findUser_none_iff d.users uid).mp h) r hr1)
    · rcases List.mem_singleton.mp hr2 with rfl
      rfl
  · simp only [heartbeat, h]
    exact touchUser_last_seen d.users uid un t huniq

/-! ## Claim theorems -/

/-- C4 counterexample: the claim requires the Conflict outcome to name
the current holder, but acquire_lock raises a fixed 409 detail string:
with the lock on invoice 1 held by user 1 and, alternatively, by user 2,
an acquire by user 3 yields the very same outcome, which therefore
cannot identify the holder; indeed the fixed message contains no digit
at all. -/
theorem c4_conflict_outcome_does_not_name_holder :
    (acquire_lock 1 3 0 (DB.mk [] [] [] [] [LockRow.mk 1 1 0] [] [] 1)).1
      = (acquire_lock 1 3 0 (DB.mk [] [] [] [] [LockRow.mk 1 2 0] [] [] 1)).1
    ∧ (acquire_lock 1 3 0 (DB.mk [] [] [] [] [LockRow.mk 1 1 0] [] [] 1)).1
      = AcquireResult.conflict 409 "Factura bloqueada por otro usuario"
    ∧ "Factura bloqueada por otro usuario".toList.all (fun c => !c.isDigit)
      = true := by
  decide

/-- C4 (amended): acquire_lock satisfies the three-case contract, with
the Conflict outcome carrying a fixed 409 message rather than naming the
current holder: with no existing lock it creates a lock held by user_id
and succeeds; with the lock held by user_id it succeeds, refreshes
acquired_at and leaves exactly one lock row for that invoice; with the
lock held by a different user it fails with the fixed 409 Conflict and
the store is unchanged. -/
theorem c4_acquire_three_case_contract (d : DB) (fid uid : Nat) (now : Timestamp)
    (huniq : List.Pairwise (fun a b => a.invoice_id ≠ b.invoice_id) d.locks) :
    (findLock d.locks fid = none →
        (acquire_lock fid uid now d).1 = AcquireResult.locked
        ∧ findLock (acquire_lock fid uid now d).2.locks fid
            = some (LockRow.mk fid uid now))
    ∧ (∀ l0, findLock d.locks fid = some l0 → l0.user_id = uid →
        (acquire_lock fid uid now d).1 = AcquireResult.locked
        ∧ findLock (acquire_lock fid uid now d).2.locks fid
            = some (LockRow.mk fid uid now)
        ∧ countLocksFor (acquire_lock fid uid now d).2.locks fid = 1)
    ∧ (∀ l0, findLock d.locks fid = some l0 → l0.user_id ≠ uid →
        (acquire_lock fid uid now d).1
          = AcquireResult.conflict 409 "Factura bloqueada por otro usuario"
        ∧ (acquire_lock fid uid now d).2 = d) := by
  refine ⟨fun hn => ⟨?_, ?_⟩, fun l0 h0 he => ⟨?_, ?_, ?_⟩,
    fun l0 h0 hne => ⟨?_, ?_⟩⟩
  · simp [acquire_lock, hn]
  · simp only [acquire_lock, hn]
    exact findLock_append_single d.locks _ fid hn rfl
  · simp [acquire_lock, h0, he]
  · simp only [acquire_lock, h0, he, ne_eq, not_true_eq_false, if_false]
    have h1 := findLock_refreshLock d.locks fid now l0 h0
    have h2 := findLock_some_fid d.locks fid l0 h0
    cases l0
    simp only at h2 he
    subst h2 he
    exact h1
  · simp only [acquire_lock, h0, he, ne_eq, not_true_eq_false, if_false]
    rw [countLocksFor_refreshLock]
    exact countLocksFor_eq_one d.locks fid l0 huniq h0
  · simp [acquire_lock, h0, hne]
  · simp [acquire_lock, h0, hne]

/-- C4 witness: on a store whose only lock is on invoice 1 held by user
7, a re-acquire by user 7 succeeds and exactly one lock row remains. -/
theorem c4_acquire_three_case_contract_witness :
    (acquire_lock 1 7 11 (DB.mk [] [] [] [] [LockRow.mk 1 7 5] [] [] 1)).1
      = AcquireResult.locked
    ∧ countLocksFor
        (acquire_lock 1 7 11 (DB.mk [] [] [] [] [LockRow.mk 1 7 5] [] [] 1)).2.locks
        1 = 1 := by
  have h := c4_acquire_three_case_contract
    (DB.mk [] [] [] [] [LockRow.mk 1 7 5] [] [] 1) 1 7 11 (by simp)
  exact ⟨(h.2.1 (LockRow.mk 1 7 5) (by decide) (by decide)).1,
         (h.2.1 (LockRow.mk 1 7 5) (by decide) (by decide)).2.2⟩

/-- C6: release deletes the lock exactly when the requester holds it
(release is modelled from the spec; src exposes no release endpoint):
if the lock on the invoice is held by user_id, the lock row is removed
while locks on other invoices survive; a release by a non-holder, or
when no lock exists, leaves the store entirely unchanged and is not an
error. -/
theorem c6_release_only_by_holder (d : DB) (fid uid : Nat) :
    (∀ l0, findLock d.locks fid = some l0 → l0.user_id = uid →
        findLock (release fid uid d).locks fid = none
        ∧ ∀ r ∈ d.locks, r.invoice_id ≠ fid → r ∈ (release fid uid d).locks)
    ∧ (∀ l0, findLock d.locks fid = some l0 → l0.user_id ≠ uid →
        release fid uid d = d)
    ∧ (findLock d.locks fid = none → release fid uid d = d) := by
  refine ⟨fun l0 h0 he => ⟨?_, ?_⟩, fun l0 h0 hne => ?_, fun hn => ?_⟩
  · simp only [release, h0, he, if_true]
    exact findLock_filter_none d.locks fid _ fun r _ hr => by simp [hr]
  · intro r hr hne
    simp only [release, h0, he, if_true]
    exact List.mem_filter.mpr ⟨hr, by simp [hne]⟩
  · simp [release, h0, hne]
  · simp [release, hn]

/-- C6 witness: with locks on invoices 1 (held by 7) and 2 (held by 8),
release of invoice 1 by user 7 removes that lock and keeps the other,
and a release of invoice 2 by non-holder 7 changes nothing. -/
theorem c6_release_only_by_holder_witness :
    findLock (release 1 7
        (DB.mk [] [] [] [] [LockRow.mk 1 7 5, LockRow.mk 2 8 5] [] [] 1)).locks 1
      = none
    ∧ LockRow.mk 2 8 5 ∈ (release 1 7
        (DB.mk [] [] [] [] [LockRow.mk 1 7 5, LockRow.mk 2 8 5] [] [] 1)).locks
    ∧ release 2 7 (DB.mk [] [] [] [] [LockRow.mk 1 7 5, LockRow.mk 2 8 5] [] [] 1)
      = DB.mk [] [] [] [] [LockRow.mk 1 7 5, LockRow.mk 2 8 5] [] [] 1 := by
  have h := c6_release_only_by_holder
    (DB.mk [] [] [] [] [LockRow.mk 1 7 5, LockRow.mk 2 8 5] [] [] 1) 1 7
  have h2 := c6_release_only_by_holder
    (DB.mk [] [] [] [] [LockRow.mk 1 7 5, LockRow.mk 2 8 5] [] [] 1) 2 7
  exact ⟨(h.1 (LockRow.mk 1 7 5) (by decide) (by decide)).1,
         (h.1 (LockRow.mk 1 7 5) (by decide) (by decide)).2
           (LockRow.mk 2 8 5) (by decide) (by decide),
         h2.2.1 (LockRow.mk 2 8 5) (by decide) (by decide)⟩

/-- C7: the sweep deletes exactly the lock rows with acquired_at older
than now - TTL and the draft rows with started_at older than now - TTL
(the source's TTL is 30 seconds), and after the sweep removed a stale
lock a subsequent acquire on that invoice by any user, in particular a
different one, succeeds instead of reporting Conflict. -/
theorem c7_sweep_exact_and_unblocks (d : DB) (now t : Timestamp)
    (l0 : LockRow) (fid uid2 : Nat)
    (huniq : List.Pairwise (fun a b => a.invoice_id ≠ b.invoice_id) d.locks)
    (hmem : l0 ∈ d.locks) (hfid : l0.invoice_id = fid)
    (hstale : l0.acquired_at < now - SWEEP_TTL) :
    (∀ l : LockRow, l ∈ (cleanup_inactive_users_logic now d).locks
        ↔ l ∈ d.locks ∧ ¬ l.acquired_at < now - SWEEP_TTL)
    ∧ (∀ r : DraftRow, r ∈ (cleanup_inactive_users_logic now d).drafts
        ↔ r ∈ d.drafts ∧ ¬ r.started_at < now - SWEEP_TTL)
    ∧ (acquire_lock fid uid2 t (cleanup_inactive_users_logic now d)).1
        = AcquireResult.locked := by
  refine ⟨?_, ?_, ?_⟩
  · intro l
    simp [cleanup_inactive_users_logic, List.mem_filter]
  · intro r
    simp [cleanup_inactive_users_logic, List.mem_filter]
  · have hnone : findLock (cleanup_inactive_users_logic now d).locks fid = none := by
      show findLock (d.locks.filter _) fid = none
      apply findLock_filter_none
      intro r hr hrf
      have : r = l0 := mem_lock_unique d.locks r l0 huniq hr hmem (hrf.trans hfid.symm)
      subst this
      simp [hstale]
    simp [acquire_lock, hnone]

/-- C7 witness: a lock on invoice 1 acquired at time 0 is stale at time
100 (limit 70); after the sweep, user 2 can acquire invoice 1. -/
theorem c7_sweep_exact_and_unblocks_witness :
    (LockRow.mk 1 1 0).acquired_at < (100 : Int) - SWEEP_TTL
    ∧ (acquire_lock 1 2 100
        (cleanup_inactive_users_logic 100
          (DB.mk [] [] [] [] [LockRow.mk 1 1 0] [] [] 1))).1
      = AcquireResult.locked := by
  have h := c7_sweep_exact_and_unblocks
    (DB.mk [] [] [] [] [LockRow.mk 1 1 0] [] [] 1) 100 100 (LockRow.mk 1 1 0) 1 2
    (by simp) (by decide) (by decide) (by decide)
  exact ⟨by decide, h.2.2⟩

/-- C8: register is an upsert keyed by user_id: starting from a store
satisfying the one-draft-per-user key invariant, after any sequence of
registrations by user u the invariant still holds, at most one draft row
exists for u, and when the sequence is nonempty the draft for u carries
exactly the client_name and timestamp of the most recent registration. -/
theorem c8_register_upsert_last_wins (d : DB) (u : Nat)
    (calls : List (String × Timestamp))
    (huniq : List.Pairwise (fun a b : DraftRow => a.user_id ≠ b.user_id) d.drafts) :
    List.Pairwise (fun a b : DraftRow => a.user_id ≠ b.user_id)
      (calls.foldl (fun db c => register_draft u c.1 c.2 db) d).drafts
    ∧ countDraftsFor
        (calls.foldl (fun db c => register_draft u c.1 c.2 db) d).drafts u ≤ 1
    ∧ ∀ c, calls.getLast? = some c →
        findDraft
          (calls.foldl (fun db c => register_draft u c.1 c.2 db) d).drafts u
          = some (DraftRow.mk u c.1 c.2) := by
  induction calls generalizing d with
  | nil =>
      refine ⟨huniq, countDraftsFor_le_one d.drafts u huniq, ?_⟩
      intro c hc
      simp at hc
  | cons c rest ih =>
      have h1 := register_draft_pairwise d u c.1 c.2 huniq
      rcases ih (register_draft u c.1 c.2 d) h1 with ⟨ihp, ihc, ihl⟩
      refine ⟨ihp, ihc, ?_⟩
      intro c2 hc2
      cases rest with
      | nil =>
          simp only [List.getLast?_singleton, Option.some.injEq] at hc2
          subst hc2
          simpa using register_draft_findDraft d u c.1 c.2
      | cons r rest2 =>
          rw [List.getLast?_cons_cons] at hc2
          exact ihl c2 hc2

/-- C8 witness: registering "Acme" then "Beta" for user 5 on the empty
store leaves exactly one draft for user 5, holding "Beta". -/
theorem c8_register_upsert_last_wins_witness :
    countDraftsFor
      ([("Acme", (1 : Int)), ("Beta", 2)].foldl
        (fun db c => register_draft 5 c.1 c.2 db) emptyDB).drafts 5 ≤ 1
    ∧ findDraft
        ([("Acme", (1 : Int)), ("Beta", 2)].foldl
          (fun db c => register_draft 5 c.1 c.2 db) emptyDB).drafts 5
        = some (DraftRow.mk 5 "Beta" 2) := by
  have h := c8_register_upsert_last_wins emptyDB 5 [("Acme", 1), ("Beta", 2)]
    List.Pairwise.nil
  exact ⟨h.2.1, h.2.2 ("Beta", 2) (by decide)⟩

/-- C9: get_active_users returns exactly the users whose last_seen is
within ACTIVE_WINDOW of now (active iff now - last_seen < ACTIVE_WINDOW,
the source's 20 seconds); and after a heartbeat at time t followed by
silence, once now - t exceeds the window that user no longer appears in
the active list. -/
theorem c9_active_window (d : DB) (now t : Timestamp) (uid : Nat) (un : String)
    (huniq : List.Pairwise (fun a b : UserRow => a.id ≠ b.id) d.users)
    (hlate : ACTIVE_WINDOW < now - t) :
    get_active_users now d
      = (d.users.filter (fun u => decide (now - u.last_seen < ACTIVE_WINDOW))).map
          (fun u => (u.id, u.full_name))
    ∧ ∀ pr ∈ get_active_users now (heartbeat uid un t d), pr.1 ≠ uid := by
  constructor
  · unfold get_active_users
    congr 1
    apply List.filter_congr
    intro u _
    apply decide_eq_decide.mpr
    simp only [ACTIVE_WINDOW]
    constructor
    · intro h1
      linarith
    · intro h1
      linarith
  · intro pr hpr
    rcases List.mem_map.mp hpr with ⟨u, hu, rfl⟩
    intro he
    rcases List.mem_filter.mp hu with ⟨humem, hcond⟩
    have hls := heartbeat_last_seen d uid un t huniq u humem he
    rw [hls] at hcond
    simp only [decide_eq_true_eq, ACTIVE_WINDOW] at hcond
    simp only [ACTIVE_WINDOW] at hlate
    linarith

/-- C1: for every document series, the committed counter value is
non-decreasing under every operation of the service, a counter row once
present is never deleted by any operation, the numeric values of
successive committed allocations are pairwise strictly increasing (each
strictly greater than every earlier one), and the number each committed
create_invoice returns is exactly the formatted logged value. -/
theorem c1_counter_monotone_never_deleted :
    (∀ (op : Op) (d : DB) (p : String), seqValD d p ≤ seqValD (applyOp op d) p)
    ∧ (∀ (op : Op) (d : DB) (p : String),
        (lookupSeq d.seqs p).isSome = true
        → (lookupSeq (applyOp op d).seqs p).isSome = true)
    ∧ (∀ (ops : List Op) (d : DB), List.Pairwise (· < ·) (allocLog ops d))
    ∧ (∀ (d : DB) (inv : InvoiceCreate),
        (create_invoice (freshSession d) inv).1.numero_factura
          = formatNumber "F" (allocValF d)) :=
  ⟨seqValD_mono, seqs_key_preserved, fun ops d => (allocLog_strict ops d).1,
   fun d _ => getNextAtomicNumber_fst (freshSession d) "F"⟩

/-- C9 witness: user 7 heartbeats at time 0; at time 100 (window 20)
user 7 is not in the active list. -/
theorem c9_active_window_witness :
    ACTIVE_WINDOW < (100 : Int) - 0
    ∧ ∀ pr ∈ get_active_users 100 (heartbeat 7 "Ana" 0 emptyDB), pr.1 ≠ 7 :=
  ⟨by decide, (c9_active_window emptyDB 100 0 7 "Ana" List.Pairwise.nil (by decide)).2⟩

/-- C3: on a fresh series with no existing counter row and configured
offset 9999, the first allocation for "F" returns "F-10000" and a second
returns "F-10001"; and when an existing counter row holds a value below
the offset, it is raised to the offset before the increment, so the
stored value becomes INITIAL_OFFSET + 1 and the returned number formats
that value. -/
theorem c3_fresh_offset_allocations (d e : DB) (v : Nat)
    (hfresh : lookupSeq d.seqs "F" = none)
    (hlow : lookupSeq e.seqs "F" = some v) (hv : v < INITIAL_OFFSET) :
    (getNextAtomicNumber (freshSession d) "F").1 = "F-10000"
    ∧ (getNextAtomicNumber (getNextAtomicNumber (freshSession d) "F").2 "F").1
        = "F-10001"
    ∧ lookupSeq (getNextAtomicNumber (freshSession e) "F").2.view.seqs "F"
        = some (INITIAL_OFFSET + 1)
    ∧ (getNextAtomicNumber (freshSession e) "F").1
        = formatNumber "F" (INITIAL_OFFSET + 1) := by
  have h1 := getNextAtomicNumber_eq_none (s := freshSession d) (p := "F") hfresh
  have h2 := getNextAtomicNumber_eq_some (s := freshSession e) (p := "F") hlow
  have hb : bumpVal v = INITIAL_OFFSET + 1 := by simp [bumpVal, if_pos hv]
  refine ⟨?_, ?_, ?_, ?_⟩
  · rw [h1]
    show formatNumber "F" (bumpVal INITIAL_OFFSET) = "F-10000"
    decide
  · have hs2 : (getNextAtomicNumber (freshSession d) "F").2.view.seqs
        = ("F", bumpVal INITIAL_OFFSET) :: (freshSession d).view.seqs := by
      rw [h1]
    have hlook : lookupSeq (getNextAtomicNumber (freshSession d) "F").2.view.seqs "F"
        = some (bumpVal INITIAL_OFFSET) := by
      rw [hs2]; simp [lookupSeq]
    rw [getNextAtomicNumber_eq_some hlook]
    show formatNumber "F" (bumpVal (bumpVal INITIAL_OFFSET)) = "F-10001"
    decide
  · rw [h2]
    simpa [hb] using lookupSeq_set_self e.seqs "F" (bumpVal v) v hlow
  · rw [h2, hb]

/-- C10: create_invoice stores, as the invoice's numero_factura, the
server-allocated number from get_next_atomic_number, and persists that
row in the committed store; the client-supplied numero_factura field has
no influence: two requests differing only in that field produce the very
same result. -/
theorem c10_client_supplied_number_ignored (s : Session) (inv : InvoiceCreate)
    (x : String) :
    (create_invoice s inv).1.numero_factura = (getNextAtomicNumber s "F").1
    ∧ (create_invoice s inv).1 ∈ (create_invoice s inv).2.committed.invoices
    ∧ create_invoice s { inv with numero_factura := x } = create_invoice s inv := by
  refine ⟨rfl, ?_, rfl⟩
  have hinv : (create_invoice s inv).2.committed.invoices
      = (getNextAtomicNumber s "F").2.view.invoices ++ [(create_invoice s inv).1] :=
    rfl
  rw [hinv]
  exact List.mem_append_right _ (List.mem_singleton_self _)

/-- C2: the counter increment and the invoice insert commit together.
A successful create_invoice publishes in one commit both the invoice row
carrying the allocated number and the counter holding that number's
numeric value; in the run where the invoice insert fails after the
allocation, the rollback discards the increment with the invoice: the
committed invoices are unchanged and a re-allocation returns the very
same number again, so no allocated number was consumed by the
uncommitted invoice (gaps can only come from the offset seeding, never a
committed duplicate). -/
theorem c2_counter_and_invoice_commit_atomically (d : DB) (inv : InvoiceCreate) :
    (∃ v : Nat,
        lookupSeq (create_invoice (freshSession d) inv).2.committed.seqs "F" = some v
        ∧ (create_invoice (freshSession d) inv).1.numero_factura = formatNumber "F" v
        ∧ (create_invoice (freshSession d) inv).1
            ∈ (create_invoice (freshSession d) inv).2.committed.invoices)
    ∧ (create_invoice_fail (freshSession d)).committed.invoices = d.invoices
    ∧ (getNextAtomicNumber
        (freshSession (create_invoice_fail (freshSession d)).committed) "F").1
      = (getNextAtomicNumber (freshSession d) "F").1 := by
  have hseqs : (create_invoice (freshSession d) inv).2.committed.seqs
      = (getNextAtomicNumber (freshSession d) "F").2.view.seqs := rfl
  have hnum : (create_invoice (freshSession d) inv).1.numero_factura
      = (getNextAtomicNumber (freshSession d) "F").1 := rfl
  have hmem : (create_invoice (freshSession d) inv).1
      ∈ (create_invoice (freshSession d) inv).2.committed.invoices := by
    have hinv : (create_invoice (freshSession d) inv).2.committed.invoices
        = (getNextAtomicNumber (freshSession d) "F").2.view.invoices
          ++ [(create_invoice (freshSession d) inv).1] := rfl
    rw [hinv]
    exact List.mem_append_right _ (List.mem_singleton_self _)
  refine ⟨⟨bumpVal ((lookupSeq d.seqs "F").getD INITIAL_OFFSET), ?_, ?_, hmem⟩, ?_, ?_⟩
  · rw [hseqs]
    exact getNextAtomicNumber_view_lookup (freshSession d) "F"
  · rw [hnum]
    exact getNextAtomicNumber_fst (freshSession d) "F"
  · show (rollbackS (getNextAtomicNumber (freshSession d) "F").2).committed.invoices
        = d.invoices
    rcases h : lookupSeq d.seqs "F" with _ | v
    · rw [getNextAtomicNumber_eq_none (s := freshSession d) h]
      rfl
    · rw [getNextAtomicNumber_eq_some (s := freshSession d) h]
      rfl
  · rw [getNextAtomicNumber_fst, getNextAtomicNumber_fst]
    show formatNumber "F" (bumpVal ((lookupSeq
        (rollbackS (getNextAtomicNumber (freshSession d) "F").2).committed.seqs
        "F").getD INITIAL_OFFSET)) = _
    rcases h : lookupSeq d.seqs "F" with _ | v
    · rw [getNextAtomicNumber_eq_none (s := freshSession d) h]
      show formatNumber "F" (bumpVal ((lookupSeq
          (("F", INITIAL_OFFSET) :: d.seqs) "F").getD INITIAL_OFFSET)) = _
      simp [freshSession, lookupSeq, h]
    · rw [getNextAtomicNumber_eq_some (s := freshSession d) h]
      show formatNumber "F" (bumpVal ((lookupSeq d.seqs "F").getD INITIAL_OFFSET)) = _
      simp [freshSession, h]

/-- C3 witness: the theorem applied to the empty store and to a store
whose counter for "F" holds 5. -/
theorem c3_fresh_offset_allocations_witness :
    lookupSeq emptyDB.seqs "F" = none
    ∧ lookupSeq (DB.mk [("F", 5)] [] [] [] [] [] [] 1).seqs "F" = some 5
    ∧ 5 < INITIAL_OFFSET
    ∧ ((getNextAtomicNumber (freshSession emptyDB) "F").1 = "F-10000"
      ∧ (getNextAtomicNumber
          (getNextAtomicNumber (freshSession emptyDB) "F").2 "F").1 = "F-10001"
      ∧ lookupSeq (getNextAtomicNumber
          (freshSession (DB.mk [("F", 5)] [] [] [] [] [] [] 1)) "F").2.view.seqs "F"
          = some (INITIAL_OFFSET + 1)
      ∧ (getNextAtomicNumber (freshSession (DB.mk [("F", 5)] [] [] [] [] [] [] 1)) "F").1
          = formatNumber "F" (INITIAL_OFFSET + 1)) :=
  ⟨by decide, by decide, by decide,
   c3_fresh_offset_allocations emptyDB (DB.mk [("F", 5)] [] [] [] [] [] [] 1) 5
     (by decide) (by decide) (by decide)⟩

/-- Under an environment that raises IntegrityError on every creation
attempt while no counter row becomes visible, the retry recursion never
returns, whatever fuel it is granted. -/
theorem allocR_allFail_none (d : DB) (h : lookupSeq d.seqs "F" = none) :
    ∀ fuel attempt,
      getNextAtomicNumberR (fun _ => CreateOutcome.integrityError none) "F"
        attempt fuel (freshSession d) = none := by
  intro fuel
  induction fuel with
  | zero => intro _; rfl
  | succ n ih =>
      intro attempt
      have h' : lookupSeq (freshSession d).view.seqs "F" = none := h
      simp only [getNextAtomicNumberR, h']
      exact ih (attempt + 1)

/-- C5 counterexample: the claim bounds the number of retries, but the
source retries by recursion with no cap: with uniqueness violations
recurring on every attempt, the allocation on the empty store is still
retrying after 100 recursive calls (and allocR_allFail_none extends this
to every recursion budget), so no bound on the retry count holds. -/
theorem c5_retry_count_not_bounded :
    getNextAtomicNumberR (fun _ => CreateOutcome.integrityError none) "F" 0 100
      (freshSession emptyDB) = none :=
  allocR_allFail_none emptyDB rfl 100 0

/-- C5 (amended): when the creation race is lost once (the losing commit
raises IntegrityError and the winner's row, seeded at the offset, is
visible after the rollback) and the violation does not recur, the
allocation is retried from the top and succeeds without surfacing the
error to the caller; but the retry count is not bounded: the source
retries by unbounded recursion, so under repeated uniqueness violations
the allocation never returns. -/
theorem c5_retry_recovers_but_recursion_unbounded (d : DB)
    (h : lookupSeq d.seqs "F" = none) :
    (getNextAtomicNumberR
        (fun a => if a = 0 then CreateOutcome.integrityError (some INITIAL_OFFSET)
                  else CreateOutcome.ok) "F" 0 2 (freshSession d)
      = some (formatNumber "F" (bumpVal INITIAL_OFFSET),
          ⟨{ d with seqs := ("F", INITIAL_OFFSET) :: d.seqs },
           { d with seqs := ("F", bumpVal INITIAL_OFFSET) :: d.seqs }⟩))
    ∧ ∀ fuel attempt,
        getNextAtomicNumberR (fun _ => CreateOutcome.integrityError none) "F"
          attempt fuel (freshSession d) = none := by
  refine ⟨?_, allocR_allFail_none d h⟩
  have h' : lookupSeq (freshSession d).view.seqs "F" = none := h
  simp only [getNextAtomicNumberR, h']
  rfl

/-- C5 witness: the amended theorem applied to the empty store. -/
theorem c5_retry_recovers_but_recursion_unbounded_witness :
    lookupSeq emptyDB.seqs "F" = none
    ∧ ((getNextAtomicNumberR
          (fun a => if a = 0 then CreateOutcome.integrityError (some INITIAL_OFFSET)
                    else CreateOutcome.ok) "F" 0 2 (freshSession emptyDB)
        = some (formatNumber "F" (bumpVal INITIAL_OFFSET),
            ⟨{ emptyDB with seqs := ("F", INITIAL_OFFSET) :: emptyDB.seqs },
             { emptyDB with seqs := ("F", bumpVal INITIAL_OFFSET) :: emptyDB.seqs }⟩))
      ∧ ∀ fuel attempt,
          getNextAtomicNumberR (fun _ => CreateOutcome.integrityError none) "F"
            attempt fuel (freshSession emptyDB) = none) :=
  ⟨rfl, c5_retry_recovers_but_recursion_unbounded emptyDB rfl⟩

end FacBal
